import Mathlib

/-!
Verification of the `g2p` crate's `GaloisField` trait surface (`src/lib.rs`).

The crate's own source provides the `GaloisField` trait: the constants `ZERO`,
`ONE`, `GENERATOR`, the arithmetic operator bounds, and the default method
`pow` implementing square-and-multiply exponentiation.  The concrete field
types (`g2p!(GF4, 2)`, `g2p!(GF16, 4)`, ...) are produced by the `g2gen`
procedural macro, which is not part of this crate's sources; where a claim
needs them they are modelled from the specification (carry-less multiplication
followed by polynomial reduction against the canonical irreducible modulus).
-/

namespace G2p

/-- Number of bits of `usize`: the value of `::std::mem::size_of::<usize>() * 8`
on the 64-bit targets the crate is built for. -/
def usizeBits : Nat := 64

/-- Shallow embedding of the `GaloisField` trait of `src/lib.rs`.  Only the
fragment used by the `pow` default method and by the claims is modelled: the
constants `ZERO`, `ONE` and `GENERATOR`, the multiplication operator `mul`
(Rust `*`), and `mulAssign` (Rust `*=`, modelled functionally: `mulAssign a b`
is the value of `a` after `a *= b`).  The additive and division operators of
the trait are not used by `pow` nor by any claim. -/
structure GaloisField (α : Type) where
  ZERO : α
  ONE : α
  GENERATOR : α
  mul : α → α → α
  mulAssign : α → α → α

variable {α : Type}

/-- The `while pow_pos > 0` loop of `GaloisField::pow`: squares the
accumulator `val` with `val *= val`, multiplies by `self` (here `x`) when the
current bit `pow_pos` of `p` is set, and halves `pow_pos` with `pow_pos >>= 1`
until it reaches zero. -/
def GaloisField.powLoop (F : GaloisField α) (x : α) (p : Nat) (pow_pos : Nat) (val : α) : α :=
  if _h : 0 < pow_pos then
    let val1 := F.mulAssign val val
    let val2 := if 0 < pow_pos &&& p then F.mulAssign val1 x else val1
    F.powLoop x p (pow_pos >>> 1) val2
  else
    val
termination_by pow_pos
decreasing_by
  rw [Nat.shiftRight_eq_div_pow]
  omega

/-- The result of `GaloisField::pow`: the loop is started with `val = ONE` and
`pow_pos = 1 << (size_of::<usize>() * 8 - 1)`, a `usize` value and therefore
reduced modulo `2 ^ usizeBits`. -/
def GaloisField.pow (F : GaloisField α) (x : α) (p : Nat) : α :=
  F.powLoop x p ((1 <<< (usizeBits - 1)) % 2 ^ usizeBits) F.ONE

/-- `GaloisField::pow` together with its `assert_eq!(pow_pos << 1, 0)`: the
function returns `none` exactly when the assertion would panic.  All shifts
are `usize` shifts, hence the reductions modulo `2 ^ usizeBits`. -/
def GaloisField.powChecked (F : GaloisField α) (x : α) (p : Nat) : Option α :=
  let pow_pos := (1 <<< (usizeBits - 1)) % 2 ^ usizeBits
  if (pow_pos <<< 1) % 2 ^ usizeBits = 0 then
    some (F.powLoop x p pow_pos F.ONE)
  else
    none

/-- Iteration-indexed reformulation of `powLoop`: with fuel `k + 1` the loop
body runs once with `pow_pos = 2 ^ k` and then continues with fuel `k`.  It is
proved equal to `powLoop` (started at `pow_pos = 2 ^ k`) below; being
structurally recursive it can be evaluated by `decide`. -/
def GaloisField.powLoopF (F : GaloisField α) (x : α) (p : Nat) : Nat → α → α
  | 0, val => val
  | k + 1, val =>
    F.powLoopF x p k
      (if 0 < 2 ^ k &&& p then F.mulAssign (F.mulAssign val val) x
       else F.mulAssign val val)

/-- Number of iterations the `while pow_pos > 0` loop performs when started at
a given `pow_pos`: the loop guard only inspects `pow_pos`, which is halved on
every iteration, so the count is independent of `p` and of the field. -/
def powLoopIters (pow_pos : Nat) : Nat :=
  if _h : 0 < pow_pos then powLoopIters (pow_pos >>> 1) + 1 else 0
termination_by pow_pos
decreasing_by
  rw [Nat.shiftRight_eq_div_pow]
  omega

/-- Reference definition of exponentiation by iterated multiplication,
the specification `pow` is compared against: `x ^ 0 = ONE` and
`x ^ (k + 1) = x ^ k * x`. -/
def GaloisField.iterPow (F : GaloisField α) (x : α) : Nat → α
  | 0 => F.ONE
  | k + 1 => F.mul (F.iterPow x k) x

/-- The variant of square-and-multiply described by the spec's note: identical
to `pow` except that the very first loop iteration does not square the
accumulator (which is still `ONE` at that point) and only performs the
conditional multiplication for the top bit before continuing with the
remaining bit positions. -/
def GaloisField.powVariant (F : GaloisField α) (x : α) (p : Nat) : α :=
  let pow_pos := (1 <<< (usizeBits - 1)) % 2 ^ usizeBits
  F.powLoop x p (pow_pos >>> 1)
    (if 0 < pow_pos &&& p then F.mulAssign F.ONE x else F.ONE)

/-- Modelled from the spec (the `g2gen` code generator that produces the
concrete field types is not among this crate's sources): carry-less (XOR)
multiplication of two GF(2) polynomials, processing the first operand bit by
bit; the first argument is fuel bounding the number of bits processed. -/
def clMulF : Nat → Nat → Nat → Nat
  | 0, _, _ => 0
  | f + 1, a, b =>
    if a = 0 then 0
    else (if a % 2 = 1 then b else 0) ^^^ clMulF f (a / 2) (2 * b)

/-- Modelled from the spec: carry-less multiplication of `a` and `b`; fuel `a`
suffices because `a < 2 ^ a`. -/
def clMul (a b : Nat) : Nat := clMulF a a b

/-- Modelled from the spec: polynomial reduction of `v` against the degree-`n`
modulus `m`: for each bit position from `n + k - 1` down to `n`, if that bit of
`v` is set, XOR `v` with `m` shifted left so that the leading bits align. -/
def gfReduce (m n : Nat) : Nat → Nat → Nat
  | 0, v => v
  | k + 1, v => gfReduce m n k (if v.testBit (n + k) then v ^^^ (m <<< k) else v)

/-- Modelled from the spec: multiplication in GF(2^n) with modulus `m`:
carry-less multiplication followed by reduction; the product of two
polynomials of degree below `n` has degree below `2 * n`, so clearing the `n`
bit positions `2 * n - 1` down to `n` fully reduces it. -/
def gfMult (m n a b : Nat) : Nat := gfReduce m n n (clMul a b)

/-- Modelled from the spec: multiplication of the field generated by
`g2p!(GF4, 2)`, on the elements `0..3` of GF(4) with the canonical irreducible
modulus x^2 + x + 1 (bit pattern 7).  The final `% 4` only places the result
in `Fin 4`; it is proved to be the identity on all inputs in
`gf4_mul_reduction_is_noop` below. -/
def GF4mul (a b : Fin 4) : Fin 4 := ⟨gfMult 7 2 a.val b.val % 4, by omega⟩

/-- Modelled from the spec: the field type generated by `g2p!(GF4, 2)`:
GF(4) with canonical modulus 7 and `GENERATOR = 2`. -/
def GF4 : GaloisField (Fin 4) where
  ZERO := 0
  ONE := 1
  GENERATOR := 2
  mul := GF4mul
  mulAssign := GF4mul

/-- Modelled from the spec: multiplication of the field generated by
`g2p!(GF16, 4)`, on the elements `0..15` of GF(16) with the canonical
irreducible modulus x^4 + x + 1 (bit pattern 19).  The final `% 16` only
places the result in `Fin 16`; it is proved to be the identity on all inputs
in `gf16_mul_reduction_is_noop` below. -/
def GF16mul (a b : Fin 16) : Fin 16 := ⟨gfMult 19 4 a.val b.val % 16, by omega⟩

/-- Modelled from the spec: the field type generated by `g2p!(GF16, 4)`:
GF(16) with canonical modulus 19 and `GENERATOR = 2`. -/
def GF16 : GaloisField (Fin 16) where
  ZERO := 0
  ONE := 1
  GENERATOR := 2
  mul := GF16mul
  mulAssign := GF16mul

theorem gf4_mul_reduction_is_noop :
    ∀ a b : Fin 4, gfMult 7 2 a.val b.val % 4 = gfMult 7 2 a.val b.val := by
  decide

theorem gf16_mul_reduction_is_noop :
    ∀ a b : Fin 16, gfMult 19 4 a.val b.val % 16 = gfMult 19 4 a.val b.val := by
  decide

theorem GaloisField.powLoop_zero (F : GaloisField α) (x : α) (p : Nat) (val : α) :
    F.powLoop x p 0 val = val := by
  rw [GaloisField.powLoop]
  simp

theorem GaloisField.powLoop_pos (F : GaloisField α) (x : α) (p : Nat) {pow_pos : Nat}
    (h : 0 < pow_pos) (val : α) :
    F.powLoop x p pow_pos val =
      F.powLoop x p (pow_pos >>> 1)
        (if 0 < pow_pos &&& p then F.mulAssign (F.mulAssign val val) x
         else F.mulAssign val val) := by
  rw [GaloisField.powLoop]
  simp [h]

theorem powLoopIters_zero : powLoopIters 0 = 0 := by
  rw [powLoopIters]
  simp

theorem powLoopIters_pos {pow_pos : Nat} (h : 0 < pow_pos) :
    powLoopIters pow_pos = powLoopIters (pow_pos >>> 1) + 1 := by
  rw [powLoopIters]
  simp [h]

theorem powLoopIters_two_pow : ∀ k : Nat, powLoopIters (2 ^ k) = k + 1 := by
  intro k
  induction k with
  | zero =>
    rw [powLoopIters_pos (by norm_num), pow_zero, Nat.shiftRight_eq_div_pow]
    norm_num [powLoopIters_zero]
  | succ k ih =>
    rw [powLoopIters_pos (Nat.pos_pow_of_pos _ (by norm_num))]
    rw [Nat.shiftRight_eq_div_pow, pow_one, Nat.pow_succ, Nat.mul_div_cancel _ (by norm_num)]
    rw [ih]

theorem GaloisField.powLoop_eq_powLoopF (F : GaloisField α) (x : α) (p : Nat) :
    ∀ (k : Nat) (val : α), F.powLoop x p (2 ^ k) val = F.powLoopF x p (k + 1) val := by
  intro k
  induction k with
  | zero =>
    intro val
    rw [GaloisField.powLoop_pos F x p (by norm_num) val]
    rw [pow_zero, Nat.shiftRight_eq_div_pow, pow_one]
    norm_num [GaloisField.powLoop_zero, GaloisField.powLoopF, pow_zero]
  | succ k ih =>
    intro val
    rw [GaloisField.powLoop_pos F x p (Nat.pos_pow_of_pos _ (by norm_num)) val]
    rw [Nat.shiftRight_eq_div_pow, pow_one, Nat.pow_succ, Nat.mul_div_cancel _ (by norm_num)]
    rw [ih]
    rw [show (2 : Nat) ^ k * 2 = 2 ^ (k + 1) from (Nat.pow_succ 2 k).symm]
    conv_rhs => rw [GaloisField.powLoopF]

theorem usize_top_bit : (1 <<< (usizeBits - 1)) % 2 ^ usizeBits = 2 ^ (usizeBits - 1) := by
  decide

theorem GaloisField.pow_eq_powLoopF (F : GaloisField α) (x : α) (p : Nat) :
    F.pow x p = F.powLoopF x p usizeBits F.ONE := by
  rw [GaloisField.pow, usize_top_bit]
  rw [F.powLoop_eq_powLoopF x p (usizeBits - 1) F.ONE]
  rfl

theorem two_pow_and_pos_iff (p j : Nat) : 0 < 2 ^ j &&& p ↔ p / 2 ^ j % 2 = 1 := by
  rw [Nat.two_pow_and, Nat.testBit_to_div_mod]
  rcases Nat.mod_two_eq_zero_or_one (p / 2 ^ j) with h | h <;>
    simp [h, Nat.pos_pow_of_pos j (show 0 < 2 by norm_num)]

theorem mod_two_pow_succ (p j : Nat) :
    p % 2 ^ (j + 1) = p / 2 ^ j % 2 * 2 ^ j + p % 2 ^ j := by
  rw [Nat.pow_succ, Nat.mod_mul]
  ring

theorem GaloisField.iterPow_add (F : GaloisField α)
    (hassoc : ∀ a b c, F.mul (F.mul a b) c = F.mul a (F.mul b c))
    (honer : ∀ a, F.mul a F.ONE = a) (x : α) :
    ∀ a b, F.iterPow x (a + b) = F.mul (F.iterPow x a) (F.iterPow x b) := by
  intro a b
  induction b with
  | zero => simp [GaloisField.iterPow, honer]
  | succ b ih =>
    rw [← Nat.add_assoc]
    show F.mul (F.iterPow x (a + b)) x = _
    rw [ih, hassoc]
    rfl

theorem GaloisField.powLoopF_iterPow (F : GaloisField α)
    (hassign : ∀ a b, F.mulAssign a b = F.mul a b)
    (hassoc : ∀ a b c, F.mul (F.mul a b) c = F.mul a (F.mul b c))
    (honer : ∀ a, F.mul a F.ONE = a) (x : α) (p : Nat) :
    ∀ j m, F.powLoopF x p j (F.iterPow x m) = F.iterPow x (m * 2 ^ j + p % 2 ^ j) := by
  intro j
  induction j with
  | zero =>
    intro m
    simp [GaloisField.powLoopF, Nat.mod_one]
  | succ j ih =>
    intro m
    rw [GaloisField.powLoopF]
    have hsq : F.mulAssign (F.iterPow x m) (F.iterPow x m) = F.iterPow x (m + m) := by
      rw [hassign, ← F.iterPow_add hassoc honer x m m]
    by_cases hbit : 0 < 2 ^ j &&& p
    · rw [if_pos hbit, hsq]
      have hstep : F.mulAssign (F.iterPow x (m + m)) x = F.iterPow x (m + m + 1) := by
        rw [hassign]
        rfl
      rw [hstep, ih (m + m + 1)]
      congr 1
      have hb : p / 2 ^ j % 2 = 1 := (two_pow_and_pos_iff p j).mp hbit
      rw [mod_two_pow_succ p j, hb, Nat.pow_succ]
      ring
    · rw [if_neg hbit, hsq, ih (m + m)]
      congr 1
      have hb : p / 2 ^ j % 2 = 0 := by
        have h01 := Nat.mod_two_eq_zero_or_one (p / 2 ^ j)
        have hiff := two_pow_and_pos_iff p j
        omega
      rw [mod_two_pow_succ p j, hb, Nat.pow_succ]
      ring

/-- Core correctness of `pow`: under the field-axiom hypotheses it computes
iterated multiplication for every exponent that fits in a `usize`. -/
theorem GaloisField.pow_eq_iterPow (F : GaloisField α)
    (hassign : ∀ a b, F.mulAssign a b = F.mul a b)
    (hassoc : ∀ a b c, F.mul (F.mul a b) c = F.mul a (F.mul b c))
    (honer : ∀ a, F.mul a F.ONE = a)
    (x : α) (p : Nat) (hp : p < 2 ^ usizeBits) :
    F.pow x p = F.iterPow x p := by
  rw [F.pow_eq_powLoopF x p]
  rw [show F.ONE = F.iterPow x 0 from rfl]
  rw [F.powLoopF_iterPow hassign hassoc honer x p usizeBits 0]
  rw [Nat.zero_mul, Nat.zero_add, Nat.mod_eq_of_lt hp]

theorem GaloisField.powLoopF_p_zero (F : GaloisField α) (x : α)
    (h11 : F.mulAssign F.ONE F.ONE = F.ONE) :
    ∀ j, F.powLoopF x 0 j F.ONE = F.ONE := by
  intro j
  induction j with
  | zero => rfl
  | succ j ih =>
    rw [GaloisField.powLoopF]
    simp [Nat.and_zero, h11, ih]

theorem GaloisField.powLoopF_p_one (F : GaloisField α) (x : α)
    (h11 : F.mulAssign F.ONE F.ONE = F.ONE) :
    ∀ j, F.powLoopF x 1 (j + 1) F.ONE = F.mulAssign F.ONE x := by
  intro j
  induction j with
  | zero =>
    rw [GaloisField.powLoopF]
    simp [GaloisField.powLoopF, h11]
  | succ j ih =>
    rw [GaloisField.powLoopF]
    have hz : 2 ^ (j + 1) &&& 1 = 0 := by
      rw [Nat.and_one_is_mod, Nat.pow_succ]
      omega
    simp [hz, h11, ih]

theorem GaloisField.powLoopF_zero_self (F : GaloisField α) (p : Nat)
    (hzz : F.mulAssign F.ZERO F.ZERO = F.ZERO) :
    ∀ j, F.powLoopF F.ZERO p j F.ZERO = F.ZERO := by
  intro j
  induction j with
  | zero => rfl
  | succ j ih =>
    rw [GaloisField.powLoopF]
    simp [hzz, ih]

theorem GaloisField.powLoopF_zero_base (F : GaloisField α) (p : Nat)
    (h11 : F.mulAssign F.ONE F.ONE = F.ONE)
    (h10 : F.mulAssign F.ONE F.ZERO = F.ZERO)
    (hzz : F.mulAssign F.ZERO F.ZERO = F.ZERO) :
    ∀ j, F.powLoopF F.ZERO p j F.ONE = if p % 2 ^ j = 0 then F.ONE else F.ZERO := by
  intro j
  induction j with
  | zero => simp [GaloisField.powLoopF, Nat.mod_one]
  | succ j ih =>
    rw [GaloisField.powLoopF, h11]
    by_cases hbit : 0 < 2 ^ j &&& p
    · have hb : p / 2 ^ j % 2 = 1 := (two_pow_and_pos_iff p j).mp hbit
      have h2j : 0 < 2 ^ j := Nat.pos_pow_of_pos j (by norm_num)
      have hne : ¬ p % 2 ^ (j + 1) = 0 := by
        rw [mod_two_pow_succ p j, hb]
        omega
      rw [if_pos hbit, h10, F.powLoopF_zero_self p hzz j, if_neg hne]
    · have hb : p / 2 ^ j % 2 = 0 := by
        have h01 := Nat.mod_two_eq_zero_or_one (p / 2 ^ j)
        have hiff := two_pow_and_pos_iff p j
        omega
      rw [if_neg hbit, ih, mod_two_pow_succ p j, hb]
      simp

theorem gf4_mul_assoc :
    ∀ a b c : Fin 4, GF4.mul (GF4.mul a b) c = GF4.mul a (GF4.mul b c) := by
  decide

theorem gf4_mul_comm : ∀ a b : Fin 4, GF4.mul a b = GF4.mul b a := by
  decide

theorem gf4_one_mul : ∀ a : Fin 4, GF4.mul GF4.ONE a = a := by
  decide

theorem gf4_mul_one : ∀ a : Fin 4, GF4.mul a GF4.ONE = a := by
  decide

theorem gf4_zero_mul : ∀ a : Fin 4, GF4.mul GF4.ZERO a = GF4.ZERO := by
  decide

theorem gf16_mul_assoc :
    ∀ a b c : Fin 16, GF16.mul (GF16.mul a b) c = GF16.mul a (GF16.mul b c) := by
  decide

theorem gf16_mul_one : ∀ a : Fin 16, GF16.mul a GF16.ONE = a := by
  decide

/-- Claim C1: for every type implementing `GaloisField` whose multiplication is
associative, has `ONE` as a two-sided identity, and whose `*=` agrees with `*`,
and for every element `x` and every exponent `p : usize` (`p < 2 ^ usizeBits`),
the default method `pow` returns `x ^ p` in the sense of the reference
definition by iterated multiplication `iterPow`. -/
theorem pow_computes_iterated_power (F : GaloisField α)
    (hassign : ∀ a b, F.mulAssign a b = F.mul a b)
    (hassoc : ∀ a b c, F.mul (F.mul a b) c = F.mul a (F.mul b c))
    (honel : ∀ a, F.mul F.ONE a = a)
    (honer : ∀ a, F.mul a F.ONE = a)
    (x : α) (p : Nat) (hp : p < 2 ^ usizeBits) :
    F.pow x p = F.iterPow x p :=
  F.pow_eq_iterPow hassign hassoc honer x p hp

/-- Witness for C1: the theorem applied to the concrete field GF(4) at
`x = GENERATOR`, `p = 3`, all hypotheses discharged there. -/
theorem pow_computes_iterated_power_witness :
    GF4.pow GF4.GENERATOR 3 = GF4.iterPow GF4.GENERATOR 3 :=
  pow_computes_iterated_power GF4 (fun _ _ => rfl) gf4_mul_assoc gf4_one_mul gf4_mul_one
    GF4.GENERATOR 3 (by norm_num [usizeBits])

/-- Claim C2 (code bug): in GF(4) as generated by `g2p!(GF4, 2)` (canonical
modulus 7, `GENERATOR = 2`, modelled from the spec), the generator `g`
satisfies `g * g = 3` (so `g * g` is not `ONE`), `g * g * g = ONE`, and
`g * g * g * g = g` (so it is not `ONE`), multiplication is closed on the four
residues, and the four values `ZERO`, `ONE`, `GENERATOR`, `GENERATOR^2` are
exactly the complete field `{0, 1, 2, 3}`.  The doctest in `src/lib.rs`
asserts `g * g * g != ONE` and `g * g * g * g == ONE`, which both fail. -/
theorem gf4_generator_powers :
    GF4.mul GF4.GENERATOR GF4.GENERATOR = (3 : Fin 4)
    ∧ GF4.mul (GF4.mul GF4.GENERATOR GF4.GENERATOR) GF4.GENERATOR = GF4.ONE
    ∧ GF4.mul (GF4.mul (GF4.mul GF4.GENERATOR GF4.GENERATOR) GF4.GENERATOR) GF4.GENERATOR
        = GF4.GENERATOR
    ∧ (∀ a b : Fin 4, gfMult 7 2 a.val b.val < 4)
    ∧ (∀ v : Fin 4,
        v = GF4.ZERO ∨ v = GF4.ONE ∨ v = GF4.GENERATOR
          ∨ v = GF4.mul GF4.GENERATOR GF4.GENERATOR) := by
  decide

/-- Claim C3: with `ONE` a multiplicative identity and `*=` agreeing with `*`,
`x.pow(0) = ONE` for every nonzero `x`, and `x.pow(1) = x` for every `x`. -/
theorem pow_zero_and_pow_one (F : GaloisField α)
    (hassign : ∀ a b, F.mulAssign a b = F.mul a b)
    (honel : ∀ a, F.mul F.ONE a = a)
    (honer : ∀ a, F.mul a F.ONE = a)
    (x : α) :
    (x ≠ F.ZERO → F.pow x 0 = F.ONE) ∧ F.pow x 1 = x := by
  have h11 : F.mulAssign F.ONE F.ONE = F.ONE := by
    rw [hassign]
    exact honer F.ONE
  refine ⟨fun _ => ?_, ?_⟩
  · rw [F.pow_eq_powLoopF x 0, F.powLoopF_p_zero x h11 usizeBits]
  · rw [F.pow_eq_powLoopF x 1, show usizeBits = 63 + 1 from rfl,
      F.powLoopF_p_one x h11 63, hassign]
    exact honel x

/-- Witness for C3: the theorem applied to GF(4) at `x = GENERATOR`, with the
nonzero hypothesis discharged by evaluation. -/
theorem pow_zero_and_pow_one_witness :
    GF4.pow GF4.GENERATOR 0 = GF4.ONE ∧ GF4.pow GF4.GENERATOR 1 = GF4.GENERATOR :=
  ⟨(pow_zero_and_pow_one GF4 (fun _ _ => rfl) gf4_one_mul gf4_mul_one GF4.GENERATOR).1
      (by decide),
   (pow_zero_and_pow_one GF4 (fun _ _ => rfl) gf4_one_mul gf4_mul_one GF4.GENERATOR).2⟩

/-- Claim C4: with multiplication associative and commutative, `ONE` an
identity and `*=` agreeing with `*`, for all exponents whose sum does not
overflow `usize`, `x.pow(a + b) = x.pow(a) * x.pow(b)`. -/
theorem pow_add_exponents (F : GaloisField α)
    (hassign : ∀ a b, F.mulAssign a b = F.mul a b)
    (hassoc : ∀ a b c, F.mul (F.mul a b) c = F.mul a (F.mul b c))
    (hcomm : ∀ a b, F.mul a b = F.mul b a)
    (honel : ∀ a, F.mul F.ONE a = a)
    (honer : ∀ a, F.mul a F.ONE = a)
    (x : α) (a b : Nat) (hab : a + b < 2 ^ usizeBits) :
    F.pow x (a + b) = F.mul (F.pow x a) (F.pow x b) := by
  have ha : a < 2 ^ usizeBits := Nat.lt_of_le_of_lt (Nat.le_add_right a b) hab
  have hb : b < 2 ^ usizeBits := Nat.lt_of_le_of_lt (Nat.le_add_left b a) hab
  rw [F.pow_eq_iterPow hassign hassoc honer x (a + b) hab,
    F.pow_eq_iterPow hassign hassoc honer x a ha,
    F.pow_eq_iterPow hassign hassoc honer x b hb,
    F.iterPow_add hassoc honer x a b]

/-- Witness for C4: the theorem applied to GF(4) at `x = GENERATOR`,
`a = 1`, `b = 2`. -/
theorem pow_add_exponents_witness :
    GF4.pow GF4.GENERATOR (1 + 2)
      = GF4.mul (GF4.pow GF4.GENERATOR 1) (GF4.pow GF4.GENERATOR 2) :=
  pow_add_exponents GF4 (fun _ _ => rfl) gf4_mul_assoc gf4_mul_comm gf4_one_mul gf4_mul_one
    GF4.GENERATOR 1 2 (by norm_num [usizeBits])

/-- Claim C5: the `assert_eq!(pow_pos << 1, 0)` inside `pow` always holds:
`pow_pos` is initialized to `1` shifted left by `usizeBits - 1`, and shifting
that `usize` value left once more gives `0`, so `powChecked` never returns
`none` and always returns the value computed by `pow`. -/
theorem pow_assert_always_holds (F : GaloisField α) (x : α) (p : Nat) :
    F.powChecked x p = some (F.pow x p) := by
  have hc : (((1 <<< (usizeBits - 1)) % 2 ^ usizeBits) <<< 1) % 2 ^ usizeBits = 0 := by
    decide
  simp only [GaloisField.powChecked, GaloisField.pow, hc, if_pos]

/-- Claim C6: the `while` loop of `pow` terminates for every input: started
from the single top bit of `usize`, the loop runs exactly one iteration per
bit of `usize` (`powLoopF` consumes one unit of fuel per iteration),
independent of `p`, and the iteration count is `usizeBits`. -/
theorem pow_loop_runs_usize_bits_iterations (F : GaloisField α) (x : α) (p : Nat) (val : α) :
    F.powLoop x p ((1 <<< (usizeBits - 1)) % 2 ^ usizeBits) val
        = F.powLoopF x p usizeBits val
    ∧ powLoopIters ((1 <<< (usizeBits - 1)) % 2 ^ usizeBits) = usizeBits := by
  rw [usize_top_bit]
  constructor
  · rw [F.powLoop_eq_powLoopF x p (usizeBits - 1) val]
    rfl
  · rw [powLoopIters_two_pow (usizeBits - 1)]
    rfl

/-- Claim C7: with `ONE * ONE = ONE` and `*=` agreeing with `*`, the first
iteration's squaring of the accumulator is a no-op, so `pow` coincides with
the variant of square-and-multiply that omits the initial squaring. -/
theorem pow_eq_variant_without_initial_square (F : GaloisField α)
    (hassign : ∀ a b, F.mulAssign a b = F.mul a b)
    (h11 : F.mul F.ONE F.ONE = F.ONE)
    (x : α) (p : Nat) :
    F.pow x p = F.powVariant x p := by
  have h1 : F.mulAssign F.ONE F.ONE = F.ONE := by
    rw [hassign]
    exact h11
  simp only [GaloisField.pow, GaloisField.powVariant]
  rw [F.powLoop_pos x p (by decide) F.ONE, h1]

/-- Witness for C7: the theorem applied to GF(4) at `x = GENERATOR`, `p = 2`. -/
theorem pow_eq_variant_without_initial_square_witness :
    GF4.pow GF4.GENERATOR 2 = GF4.powVariant GF4.GENERATOR 2 :=
  pow_eq_variant_without_initial_square GF4 (fun _ _ => rfl) (gf4_mul_one GF4.ONE)
    GF4.GENERATOR 2

/-- Claim C8: in GF(16) as generated by `g2p!(GF16, 4)` (canonical modulus 19,
modelled from the spec), the element `g = 2` satisfies `g.pow(0) = ONE`,
`g.pow(1) = 2`, `g.pow(2) = 4`, `g.pow(3) = 8` and `g.pow(4) = 3`. -/
theorem gf16_generator_pow_values :
    GF16.pow 2 0 = GF16.ONE ∧ GF16.pow 2 1 = 2 ∧ GF16.pow 2 2 = 4
      ∧ GF16.pow 2 3 = 8 ∧ GF16.pow 2 4 = 3 := by
  have h : ∀ p : Nat, p < 2 ^ usizeBits → GF16.pow 2 p = GF16.iterPow 2 p := fun p hp =>
    GaloisField.pow_eq_iterPow GF16 (fun _ _ => rfl) gf16_mul_assoc gf16_mul_one 2 p hp
  refine ⟨?_, ?_, ?_, ?_, ?_⟩ <;> rw [h _ (by norm_num [usizeBits])] <;> decide

/-- Claim C9 (edge case): with `ONE * ONE = ONE` and `*=` agreeing with `*`,
`pow` returns `ONE` for exponent `0` even when `self` is `ZERO`, because the
accumulator is never multiplied by `self` when `p = 0`. -/
theorem zero_pow_zero_is_one (F : GaloisField α)
    (hassign : ∀ a b, F.mulAssign a b = F.mul a b)
    (h11 : F.mul F.ONE F.ONE = F.ONE) :
    F.pow F.ZERO 0 = F.ONE := by
  have h1 : F.mulAssign F.ONE F.ONE = F.ONE := by
    rw [hassign]
    exact h11
  rw [F.pow_eq_powLoopF F.ZERO 0, F.powLoopF_p_zero F.ZERO h1 usizeBits]

/-- Witness for C9: the theorem applied to GF(4). -/
theorem zero_pow_zero_is_one_witness : GF4.pow GF4.ZERO 0 = GF4.ONE :=
  zero_pow_zero_is_one GF4 (fun _ _ => rfl) (gf4_mul_one GF4.ONE)

/-- Claim C10 (edge case): with `ONE * ONE = ONE`, `ONE * ZERO = ZERO`,
`ZERO * x = ZERO` and `*=` agreeing with `*`, `ZERO.pow(p) = ZERO` for every
`usize` exponent `p ≥ 1`: the accumulator stays `ONE` through the leading zero
bits of `p`, becomes `ZERO` at the first set bit, and remains `ZERO`. -/
theorem zero_pow_pos_is_zero (F : GaloisField α)
    (hassign : ∀ a b, F.mulAssign a b = F.mul a b)
    (h11 : F.mul F.ONE F.ONE = F.ONE)
    (h10 : F.mul F.ONE F.ZERO = F.ZERO)
    (hz : ∀ a, F.mul F.ZERO a = F.ZERO)
    (p : Nat) (hp1 : 1 ≤ p) (hp : p < 2 ^ usizeBits) :
    F.pow F.ZERO p = F.ZERO := by
  rw [F.pow_eq_powLoopF F.ZERO p]
  rw [F.powLoopF_zero_base p (by rw [hassign]; exact h11) (by rw [hassign]; exact h10)
    (by rw [hassign]; exact hz F.ZERO) usizeBits]
  rw [Nat.mod_eq_of_lt hp, if_neg (by omega)]

/-- Witness for C10: the theorem applied to GF(4) at `p = 2`. -/
theorem zero_pow_pos_is_zero_witness : GF4.pow GF4.ZERO 2 = GF4.ZERO :=
  zero_pow_pos_is_zero GF4 (fun _ _ => rfl) (gf4_mul_one GF4.ONE) (gf4_one_mul GF4.ZERO)
    gf4_zero_mul 2 (by norm_num) (by norm_num [usizeBits])

end G2p
